import Mathlib

/-!
Verification of the MLNode load-balancer service (packages/load_balancer):
`config.py`, `backends.py`, `monitor.py` and `app.py`.

Python strings that the code manipulates character-by-character (environment
values, URL paths) are modelled as `List Char`; strings that are only compared
or reported verbatim are modelled as `String`.  Python `int` are `Int` (the
counter clamp, not the type, keeps them non-negative).  The `asyncio` locks of
the source serialize the composite read-modify-write operations; those
composites are modelled as atomic pure functions on explicit pool state.
Network I/O (httpx calls) is modelled by passing the outcome of each call as an
explicit argument.
-/

set_option autoImplicit false

universe u

/-! ### Python string primitives -/

/-- Python `str.split(sep)` for a single-character separator: splits on every
occurrence, keeping empty pieces, so the result is always non-empty. -/
def pySplit (sep : Char) : List Char → List (List Char)
  | [] => [[]]
  | c :: rest =>
    let r := pySplit sep rest
    if c == sep then [] :: r
    else
      match r with
      | [] => [[c]]
      | piece :: more => (c :: piece) :: more

/-- Python `str.strip()`: removes leading and trailing whitespace. -/
def pyStrip (s : List Char) : List Char :=
  ((s.dropWhile Char.isWhitespace).reverse.dropWhile Char.isWhitespace).reverse

/-- Python `str.rstrip("/")`: removes every trailing slash character. -/
def pyRstripSlash (s : List Char) : List Char :=
  (s.reverse.dropWhile (fun c => c == '/')).reverse

/-! ### config.py -/

/-- The configuration failures `Settings.load` raises (`RuntimeError` in the
source, with the messages recorded here structurally). -/
inductive ConfigError where
  | noBackends : ConfigError
  | invalidFloat (name : String) (raw : List Char) : ConfigError
deriving DecidableEq

/-- `Settings` dataclass of `config.py`.  Python floats are modelled as `Rat`;
the numeric defaults 2.0, 30.0, 5.0, 2.0 become the rationals 2, 30, 5, 2. -/
structure Settings where
  backend_urls : List (List Char)
  refresh_interval : Rat
  request_timeout : Rat
  state_timeout : Rat
  health_timeout : Rat
deriving DecidableEq

def varBackends : String := "MLNODE_BACKENDS"

def varRefresh : String := "MLNODE_REFRESH_INTERVAL"

def varRequest : String := "MLNODE_REQUEST_TIMEOUT"

def varState : String := "MLNODE_STATE_TIMEOUT"

def varHealth : String := "MLNODE_HEALTH_TIMEOUT"

/-- The backends list comprehension of `Settings.load`:
entries of the comma-split value, filtered on the truthiness of the stripped
entry, each mapped to its stripped and slash-right-stripped form. -/
def parseBackends (raw : List Char) : List (List Char) :=
  (pySplit ',' raw).filterMap (fun b =>
    if (pyStrip b).isEmpty then none else some (pyRstripSlash (pyStrip b)))

/-- `_float_env` of `config.py`.  Python `float(raw)` is an external library
routine; it enters the model as the oracle `parseFloat`, `none` meaning
`ValueError`. -/
def float_env (env : String → Option (List Char)) (parseFloat : List Char → Option Rat)
    (name : String) (default : Rat) : Except ConfigError Rat :=
  match env name with
  | none => Except.ok default
  | some raw =>
    match parseFloat raw with
    | some v => Except.ok v
    | none => Except.error (ConfigError.invalidFloat name raw)

/-- `Settings.load` of `config.py`: parse `MLNODE_BACKENDS` (absence read as
the empty string), fail if the parsed list is empty, then read the four float
variables in source order. -/
def Settings.load (env : String → Option (List Char))
    (parseFloat : List Char → Option Rat) : Except ConfigError Settings :=
  let raw := (env varBackends).getD []
  let backends := parseBackends raw
  if backends.isEmpty then
    Except.error ConfigError.noBackends
  else
    match float_env env parseFloat varRefresh 2 with
    | Except.error e => Except.error e
    | Except.ok ri =>
      match float_env env parseFloat varRequest 30 with
      | Except.error e => Except.error e
      | Except.ok rt =>
        match float_env env parseFloat varState 5 with
        | Except.error e => Except.error e
        | Except.ok st =>
          match float_env env parseFloat varHealth 2 with
          | Except.error e => Except.error e
          | Except.ok ht => Except.ok ⟨backends, ri, rt, st, ht⟩

/-! ### backends.py -/

def inferenceState : String := "INFERENCE"

def powState : String := "POW"

def trainState : String := "TRAIN"

def stoppedState : String := "STOPPED"

/-- A lifecycle label outside the priority list, as a backend may report. -/
def fooState : String := "FOO"

/-- The `Backend` dataclass: URL, last state reported by the monitor, health
flag and in-flight request counter.  The `settings` back-reference of the
source (used only for the monitor's timeouts, which are I/O parameters) is
omitted; the `asyncio.Lock` serializing counter updates is implicit in the
atomicity of the update functions. -/
structure Backend where
  url : List Char
  state : Option String
  healthy : Bool
  active_requests : Int
deriving DecidableEq

/-- Construction `Backend(url=b, settings=settings)` with the dataclass
defaults `state=None`, `healthy=False`, `active_requests=0`. -/
def Backend.make (url : List Char) : Backend :=
  ⟨url, none, false, 0⟩

/-- `Backend.mark_request_start`: increment the counter. -/
def Backend.mark_request_start (b : Backend) : Backend :=
  ⟨b.url, b.state, b.healthy, b.active_requests + 1⟩

/-- `Backend.mark_request_done`: decrement the counter, clamped at 0. -/
def Backend.mark_request_done (b : Backend) : Backend :=
  if b.active_requests > 0 then
    ⟨b.url, b.state, b.healthy, b.active_requests - 1⟩
  else b

/-- `Backend.is_available`: healthy and in INFERENCE state. -/
def Backend.is_available (b : Backend) : Bool :=
  b.healthy && (b.state == some inferenceState)

/-- `BackendPool.__init__`: one `Backend` per configured URL, in configuration
order.  The pool is its list of backends. -/
def BackendPool.make (urls : List (List Char)) : List Backend :=
  urls.map Backend.make

/-- Index-decorated view of the pool, so that the backend object identity of
the source (objects mutated in place) is tracked as a position. -/
def enumL {α : Type u} : Nat → List α → List (Nat × α)
  | _, [] => []
  | n, b :: bs => (n, b) :: enumL (n + 1) bs

/-- The left fold performed by Python `min(xs, key=k)` once the first element
is taken as the initial accumulator: a later element replaces the accumulator
only when its key is strictly smaller, so the first minimum wins. -/
def foldMin {α : Type u} (key : α → Int) : α → List α → α
  | acc, [] => acc
  | acc, y :: ys => foldMin key (if key y < key acc then y else acc) ys

/-- Python `min(xs, key=k)`: `none` on an empty list (`ValueError` in Python;
the source guards against it). -/
def pyMinBy {α : Type u} (key : α → Int) : List α → Option α
  | [] => none
  | x :: xs => some (foldMin key x xs)

def noHealthyMsg : String := "No healthy inference backends available"

/-- `BackendPool.pick_backend`, the composite executed under `_pick_lock`:
filter to available backends, fail if none, take the least-loaded (first wins
on ties), increment its counter before returning.  Returns the chosen index
and the updated pool. -/
def pick_backend (bs : List Backend) : Except String (Nat × List Backend) :=
  let candidates := (enumL 0 bs).filter (fun p => p.2.is_available)
  match pyMinBy (fun p => p.2.active_requests) candidates with
  | none => Except.error noHealthyMsg
  | some (i, b) => Except.ok (i, bs.set i b.mark_request_start)

/-- `BackendPool.release_backend`: `mark_request_done` on the backend at the
given position. -/
def release_backend (bs : List Backend) (i : Nat) : List Backend :=
  match bs.get? i with
  | some b => bs.set i b.mark_request_done
  | none => bs

def statePriority : List String := [inferenceState, powState, trainState, stoppedState]

/-- The guard of the comprehension in `aggregate_state`: Python `if b.state`
keeps a state only when it is truthy, dropping both `None` and the empty
string. -/
def truthyState (b : Backend) : Option String :=
  match b.state with
  | some s => if s == "" then none else some s
  | none => none

/-- `BackendPool.aggregate_state`: collect the truthy states, return the
first priority entry present among them, defaulting to STOPPED. -/
def aggregate_state (bs : List Backend) : String :=
  let states := bs.filterMap truthyState
  match statePriority.find? (fun s => states.contains s) with
  | some s => s
  | none => stoppedState

/-- `BackendPool.any_healthy`: some backend is available. -/
def any_healthy (bs : List Backend) : Bool :=
  bs.any (fun b => b.is_available)

/-! ### monitor.py -/

def stateKey : String := "state"

/-- Outcome of one httpx GET, as far as the monitor inspects it: either the
call raised, or it produced a status code and a body.  The body field records
the result of attempting to parse the body as a JSON object of string fields
(`none` when `response.json()` raises `ValueError`). -/
inductive FetchOutcome where
  | exn : FetchOutcome
  | resp (status : Nat) (body : Option (List (String × String))) : FetchOutcome
deriving DecidableEq

/-- `_fetch_json` of `monitor.py`: `None` on a raised call, on a non-200
status, or on an unparsable body; otherwise the parsed object. -/
def fetch_json : FetchOutcome → Option (List (String × String))
  | FetchOutcome.exn => none
  | FetchOutcome.resp status body => if status ≠ 200 then none else body

/-- `_fetch_status` of `monitor.py`: true exactly on a non-raising call that
returned HTTP 200. -/
def fetch_status : FetchOutcome → Bool
  | FetchOutcome.exn => false
  | FetchOutcome.resp status _ => status == 200

/-- The body of the `monitor_backend` loop for one iteration, given the
outcomes of the two GETs: `backend.state` becomes the value under the key
state of the fetched JSON object when there is one (Python truthiness makes
an empty object yield `None`, as the missing key would), else `None`; then
`backend.healthy` becomes the health probe result. -/
def monitor_iteration (b : Backend) (stateFetch healthFetch : FetchOutcome) : Backend :=
  let state_data := fetch_json stateFetch
  let newState :=
    match state_data with
    | some d => if d.isEmpty then none else List.lookup stateKey d
    | none => none
  ⟨b.url, newState, fetch_status healthFetch, b.active_requests⟩

/-! ### app.py -/

/-- Response bodies the routes produce: the health JSON object, a FastAPI
`HTTPException` detail, or a proxied upstream byte stream. -/
inductive ResponseBody where
  | statusHealthy : ResponseBody
  | detail (msg : String) : ResponseBody
  | upstreamStream : ResponseBody
deriving DecidableEq

/-- Observable result of a route handler: HTTP status, body, the pool state at
the moment the response is returned (or the exception raised), how many
upstream streams the handler opened, and the backend index whose release is
deferred to the response's background task, if any. -/
structure RouteResult where
  status : Nat
  body : ResponseBody
  pool : List Backend
  upstreamCalls : Nat
  pendingRelease : Option Nat
deriving DecidableEq

/-- Outcome of `client.stream(...).__aenter__()` for the one upstream request
a proxy handler opens. -/
inductive UpstreamOutcome where
  | openFailed : UpstreamOutcome
  | opened (status : Nat) : UpstreamOutcome
deriving DecidableEq

def upstreamFailedMsg : String := "Upstream request failed"

/-- `_proxy_request` of `app.py`, with the upstream open outcome passed in:
a failed pick is answered 503 with the pick error as detail and touches
nothing; a failed upstream open releases the picked backend and raises 502;
a successful open streams the upstream response, deferring the release. -/
def proxy_request (bs : List Backend) (up : UpstreamOutcome) : RouteResult :=
  match pick_backend bs with
  | Except.error msg => ⟨503, ResponseBody.detail msg, bs, 0, none⟩
  | Except.ok (i, bs2) =>
    match up with
    | UpstreamOutcome.openFailed =>
      ⟨502, ResponseBody.detail upstreamFailedMsg, release_backend bs2 i, 1, none⟩
    | UpstreamOutcome.opened status =>
      ⟨status, ResponseBody.upstreamStream, bs2, 1, some i⟩

/-- The path rewrite at the top of `_proxy_request`: when `mount_path` is
truthy, drop its length from the front of the path unconditionally and ensure
the remainder begins with a slash. -/
def rewrite_path (path mount_path : List Char) : List Char :=
  if !mount_path.isEmpty then
    let t := path.drop mount_path.length
    if !(t.head? == some '/') then '/' :: t else t
  else path

def noHealthyRouteMsg : String := "No healthy inference backends"

/-- The `/health` route: 503 when no backend is available, else the healthy
JSON object.  It only reads the pool and opens no upstream stream. -/
def health_route (bs : List Backend) : RouteResult :=
  if !(any_healthy bs) then
    ⟨503, ResponseBody.detail noHealthyRouteMsg, bs, 0, none⟩
  else
    ⟨200, ResponseBody.statusHealthy, bs, 0, none⟩

def noBackendsMsg : String := "No MLNode backends configured"

/-- The backend selection at the head of the `proxy_fallback` route:
`next(iter(pool.backends), None)`, answered with the configured-backends 503
when the pool is empty. -/
def proxy_fallback_select (bs : List Backend) : Except String Backend :=
  match bs.head? with
  | none => Except.error noBackendsMsg
  | some b => Except.ok b

/-! ### Auxiliary notions used by the statements -/

/-- The two counter updates a backend is subjected to over its lifetime. -/
inductive CounterOp where
  | start : CounterOp
  | finish : CounterOp

def applyOp (b : Backend) : CounterOp → Backend
  | CounterOp.start => b.mark_request_start
  | CounterOp.finish => b.mark_request_done

/-- An arbitrary interleaving of request starts and completions. -/
def applyOps (b : Backend) (ops : List CounterOp) : Backend :=
  ops.foldl applyOp b

/-- Some backend of the pool currently reports the given state. -/
@[reducible]
def hasState (bs : List Backend) (p : String) : Prop :=
  ∃ b ∈ bs, b.state = some p

/-- The pool of scenario S5: three available backends with counters 3, 1, 1. -/
def s5pool : List Backend :=
  [⟨['1'], some inferenceState, true, 3⟩,
   ⟨['2'], some inferenceState, true, 1⟩,
   ⟨['3'], some inferenceState, true, 1⟩]

/-! ## Theorems -/

/-- The clamped decrement undoes an increment on a non-negative counter. -/
theorem mark_done_mark_start (b : Backend) (h : 0 ≤ b.active_requests) :
    b.mark_request_start.mark_request_done = b := by
  have hpos : b.active_requests + 1 > 0 := by omega
  simp only [Backend.mark_request_start, Backend.mark_request_done, hpos, if_true]
  cases b
  simp

/-- C5: the active-request counter stays non-negative: an increment always
adds one, a decrement on a positive counter subtracts one, a decrement on a
zero counter is the identity, and every interleaving of the two operations
preserves non-negativity. -/
theorem counter_clamp_invariant :
    (∀ b : Backend, b.mark_request_start.active_requests = b.active_requests + 1) ∧
    (∀ b : Backend, 0 < b.active_requests →
        b.mark_request_done.active_requests = b.active_requests - 1) ∧
    (∀ b : Backend, b.active_requests = 0 → b.mark_request_done = b) ∧
    (∀ (b : Backend) (ops : List CounterOp), 0 ≤ b.active_requests →
        0 ≤ (applyOps b ops).active_requests) := by
  refine ⟨fun b => rfl, fun b h => ?_, fun b h => ?_, fun b ops => ?_⟩
  · simp only [Backend.mark_request_done, h, if_true]
  · simp only [Backend.mark_request_done, h]
    norm_num
  · induction ops generalizing b with
    | nil => intro h; exact h
    | cons op rest ih =>
      intro h
      refine ih (applyOp b op) ?_
      cases op with
      | start =>
        simp only [applyOp, Backend.mark_request_start]
        omega
      | finish =>
        simp only [applyOp, Backend.mark_request_done]
        by_cases hpos : b.active_requests > 0
        · simp only [hpos, if_true]; omega
        · simp only [hpos, if_false]; exact h

/-- Witness for C5: completing a request on a fresh backend leaves it intact. -/
theorem counter_clamp_invariant_witness :
    (Backend.make ['b']).mark_request_done = Backend.make ['b'] :=
  counter_clamp_invariant.2.2.1 (Backend.make ['b']) rfl

/-- C4 counterexample: with mount path /x, the incoming path /ab does not
start with the mount path, yet the handler does not forward it unchanged (it
slices off two characters and yields /b). -/
theorem rewrite_path_cex :
    List.isPrefixOf ['/', 'x'] ['/', 'a', 'b'] = false ∧
    rewrite_path ['/', 'a', 'b'] ['/', 'x'] ≠ ['/', 'a', 'b'] := by
  decide

/-- C4 amended: an empty mount path leaves the path unchanged; a non-empty
mount path makes the handler drop its length from the front of the path
unconditionally (whether or not the path starts with the mount path) and
prepend a slash when the remainder does not start with one — in particular a
path that does start with the mount path has exactly that prefix stripped. -/
theorem rewrite_path_correct (path mount rest : List Char) :
    (rewrite_path path [] = path) ∧
    (mount ≠ [] → rewrite_path (mount ++ rest) mount =
        if rest.head? = some '/' then rest else '/' :: rest) ∧
    (mount ≠ [] → rewrite_path path mount =
        if (path.drop mount.length).head? = some '/' then path.drop mount.length
        else '/' :: path.drop mount.length) := by
  have general : ∀ p : List Char, mount ≠ [] → rewrite_path p mount =
      if (p.drop mount.length).head? = some '/' then p.drop mount.length
      else '/' :: p.drop mount.length := by
    intro p hm
    have hne : mount.isEmpty = false := by
      cases mount with
      | nil => exact absurd rfl hm
      | cons c cs => rfl
    by_cases hh : (p.drop mount.length).head? = some '/'
    · simp [rewrite_path, hne, hh]
    · simp [rewrite_path, hne, hh]
  refine ⟨by simp [rewrite_path], fun hm => ?_, general path⟩
  have := general (mount ++ rest) hm
  rwa [List.drop_left] at this

/-- Witness for C4's amended statement: mounting under /v strips the prefix
from /v/m. -/
theorem rewrite_path_correct_witness :
    rewrite_path (['/', 'v'] ++ ['/', 'm']) ['/', 'v'] =
      if (['/', 'm'] : List Char).head? = some '/' then ['/', 'm']
      else '/' :: ['/', 'm'] :=
  (rewrite_path_correct (['/', 'v'] ++ ['/', 'm']) ['/', 'v'] ['/', 'm']).2.1 (by decide)

/-- C6: one monitor iteration stores, under the state field, the value found
under the state key of the JSON object fetched with HTTP 200 (absent key
giving none), stores none on a raised call, a non-200 status or an unparsable
body, and sets the health flag exactly when the health probe returned 200;
the URL and the counter are untouched. -/
theorem monitor_iteration_correct (b : Backend) (sf hf : FetchOutcome) :
    (∀ d, sf = FetchOutcome.resp 200 (some d) →
        (monitor_iteration b sf hf).state = List.lookup stateKey d) ∧
    ((sf = FetchOutcome.exn ∨ ∀ s bd, sf = FetchOutcome.resp s bd → s ≠ 200 ∨ bd = none) →
        (monitor_iteration b sf hf).state = none) ∧
    ((monitor_iteration b sf hf).healthy = true ↔ ∃ bd, hf = FetchOutcome.resp 200 bd) ∧
    (monitor_iteration b sf hf).url = b.url ∧
    (monitor_iteration b sf hf).active_requests = b.active_requests := by
  refine ⟨?_, ?_, ?_, rfl, rfl⟩
  · rintro d rfl
    cases d with
    | nil => simp [monitor_iteration, fetch_json]
    | cons kv rest => simp [monitor_iteration, fetch_json]
  · rintro (rfl | herr)
    · simp [monitor_iteration, fetch_json]
    · cases sf with
      | exn => simp [monitor_iteration, fetch_json]
      | resp s bd =>
        rcases herr s bd rfl with hs | rfl
        · simp [monitor_iteration, fetch_json, hs]
        · simp [monitor_iteration, fetch_json]
  · cases hf with
    | exn =>
      simp only [monitor_iteration, fetch_status]
      constructor
      · intro h; exact absurd h (by simp)
      · rintro ⟨bd, h⟩; exact absurd h (by simp)
    | resp s bd =>
      simp only [monitor_iteration, fetch_status, beq_iff_eq]
      constructor
      · rintro rfl; exact ⟨bd, rfl⟩
      · rintro ⟨bd2, h⟩
        injection h with h1 h2

/-- Witness for C6: a 200 state probe with a one-field object stores POW. -/
theorem monitor_iteration_correct_witness :
    (monitor_iteration (Backend.make ['b'])
        (FetchOutcome.resp 200 (some [(stateKey, powState)])) FetchOutcome.exn).state =
      List.lookup stateKey [(stateKey, powState)] :=
  (monitor_iteration_correct (Backend.make ['b'])
      (FetchOutcome.resp 200 (some [(stateKey, powState)])) FetchOutcome.exn).1
    [(stateKey, powState)] rfl

/-! ### Selection machinery lemmas -/

theorem mem_enumL {α : Type u} (l : List α) (n i : Nat) (a : α) :
    (i, a) ∈ enumL n l ↔ ∃ k, i = n + k ∧ l.get? k = some a := by
  induction l generalizing n with
  | nil => simp [enumL]
  | cons b bs ih =>
    simp only [enumL, List.mem_cons]
    constructor
    · rintro (h | h)
      · rw [Prod.mk.injEq] at h
        obtain ⟨rfl, rfl⟩ := h
        exact ⟨0, by omega, by simp⟩
      · rcases (ih (n + 1)).1 h with ⟨k, hk, hget⟩
        exact ⟨k + 1, by omega, by simpa using hget⟩
    · rintro ⟨k, rfl, hget⟩
      cases k with
      | zero =>
        left
        have hba : b = a := by simpa using hget
        subst hba
        simp
      | succ m =>
        right
        exact (ih (n + 1)).2 ⟨m, by omega, by simpa using hget⟩

theorem mem_enumL_zero {α : Type u} (l : List α) (i : Nat) (a : α) :
    (i, a) ∈ enumL 0 l ↔ l.get? i = some a := by
  rw [mem_enumL]
  constructor
  · rintro ⟨k, rfl, h⟩
    simpa using h
  · intro h
    exact ⟨i, by omega, h⟩

theorem enumL_fst_le {α : Type u} (l : List α) (n : Nat) (p : Nat × α)
    (h : p ∈ enumL n l) : n ≤ p.1 := by
  induction l generalizing n with
  | nil => simp [enumL] at h
  | cons b bs ih =>
    simp only [enumL, List.mem_cons] at h
    rcases h with rfl | h
    · exact Nat.le_refl n
    · have := ih (n + 1) h
      omega

theorem enumL_pairwise {α : Type u} (l : List α) (n : Nat) :
    List.Pairwise (fun p q : Nat × α => p.1 < q.1) (enumL n l) := by
  induction l generalizing n with
  | nil => exact List.Pairwise.nil
  | cons b bs ih =>
    refine List.Pairwise.cons ?_ (ih (n + 1))
    intro q hq
    have := enumL_fst_le bs (n + 1) q hq
    simp only []
    omega

theorem foldMin_spec {α : Type u} (key : α → Int) (l : List α) : ∀ acc : α,
    (foldMin key acc l = acc ∧ ∀ y ∈ l, key acc ≤ key y) ∨
    (∃ l1 l2, l = l1 ++ foldMin key acc l :: l2 ∧
        key (foldMin key acc l) < key acc ∧
        (∀ y ∈ l1, key (foldMin key acc l) < key y) ∧
        (∀ y ∈ l2, key (foldMin key acc l) ≤ key y)) := by
  induction l with
  | nil =>
    intro acc
    left
    exact ⟨rfl, by simp⟩
  | cons y ys ih =>
    intro acc
    by_cases hy : key y < key acc
    · have hfold : foldMin key acc (y :: ys) = foldMin key y ys := by
        simp [foldMin, hy]
      rcases ih y with ⟨heq, hall⟩ | ⟨l1, l2, hsplit, hlt, hpre, hpost⟩
      · right
        refine ⟨[], ys, ?_, ?_, ?_, ?_⟩
        · rw [hfold, heq]
          simp
        · rw [hfold, heq]
          exact hy
        · simp
        · rw [hfold, heq]
          exact hall
      · right
        refine ⟨y :: l1, l2, ?_, ?_, ?_, ?_⟩
        · rw [hfold]
          conv_lhs => rw [hsplit]
          rfl
        · rw [hfold]
          exact lt_trans hlt hy
        · rw [hfold]
          intro z hz
          rcases List.mem_cons.1 hz with rfl | hz2
          · exact hlt
          · exact hpre z hz2
        · rw [hfold]
          exact hpost
    · have hfold : foldMin key acc (y :: ys) = foldMin key acc ys := by
        simp [foldMin, hy]
      have hay : key acc ≤ key y := le_of_not_lt hy
      rcases ih acc with ⟨heq, hall⟩ | ⟨l1, l2, hsplit, hlt, hpre, hpost⟩
      · left
        rw [hfold, heq]
        refine ⟨rfl, ?_⟩
        intro z hz
        rcases List.mem_cons.1 hz with rfl | hz2
        · exact hay
        · exact hall z hz2
      · right
        refine ⟨y :: l1, l2, ?_, ?_, ?_, ?_⟩
        · rw [hfold]
          conv_lhs => rw [hsplit]
          rfl
        · rw [hfold]
          exact hlt
        · rw [hfold]
          intro z hz
          rcases List.mem_cons.1 hz with rfl | hz2
          · exact lt_of_lt_of_le hlt hay
          · exact hpre z hz2
        · rw [hfold]
          exact hpost

theorem pyMinBy_eq_none {α : Type u} (key : α → Int) (l : List α) :
    pyMinBy key l = none ↔ l = [] := by
  cases l <;> simp [pyMinBy]

theorem pyMinBy_spec {α : Type u} (key : α → Int) {l : List α} {r : α}
    (h : pyMinBy key l = some r) :
    ∃ pre post, l = pre ++ r :: post ∧
      (∀ y ∈ pre, key r < key y) ∧ (∀ y ∈ post, key r ≤ key y) := by
  cases l with
  | nil => simp [pyMinBy] at h
  | cons c cs =>
    have h2 : foldMin key c cs = r := by simpa [pyMinBy] using h
    rcases foldMin_spec key cs c with ⟨heq, hall⟩ | ⟨l1, l2, hsplit, hlt, hpre, hpost⟩
    · rw [h2] at heq
      refine ⟨[], cs, by simp [heq], by simp, ?_⟩
      intro y hy
      rw [heq]
      exact hall y hy
    · rw [h2] at hsplit hlt hpre hpost
      refine ⟨c :: l1, l2, ?_, ?_, hpost⟩
      · conv_lhs => rw [hsplit]
        rfl
      · intro z hz
        rcases List.mem_cons.1 hz with rfl | hz2
        · exact hlt
        · exact hpre z hz2

theorem pick_backend_error_of_none {bs : List Backend}
    (h : ∀ b ∈ bs, b.is_available = false) :
    pick_backend bs = Except.error noHealthyMsg := by
  have hcand : (enumL 0 bs).filter (fun p : Nat × Backend => p.2.is_available) = [] := by
    rw [List.filter_eq_nil_iff]
    rintro ⟨j, bj⟩ hmem
    have hj := (mem_enumL_zero bs j bj).1 hmem
    have hbj : bj ∈ bs := List.get?_mem hj
    simp [h bj hbj]
  simp [pick_backend, hcand, pyMinBy]

theorem pick_backend_ok_of_avail {bs : List Backend}
    (h : ∃ b ∈ bs, b.is_available = true) :
    ∃ i bs2, pick_backend bs = Except.ok (i, bs2) := by
  rcases h with ⟨b, hb, havail⟩
  rcases List.mem_iff_get?.1 hb with ⟨i0, hi0⟩
  have hmem : (i0, b) ∈ (enumL 0 bs).filter (fun p : Nat × Backend => p.2.is_available) :=
    List.mem_filter.2 ⟨(mem_enumL_zero bs i0 b).2 hi0, havail⟩
  cases hm : pyMinBy (fun p : Nat × Backend => p.2.active_requests)
      ((enumL 0 bs).filter (fun p => p.2.is_available)) with
  | none =>
    rw [pyMinBy_eq_none] at hm
    rw [hm] at hmem
    simp at hmem
  | some p =>
    obtain ⟨i, b2⟩ := p
    exact ⟨i, bs.set i b2.mark_request_start, by simp [pick_backend, hm]⟩

theorem pick_backend_ok_inv {bs : List Backend} {i : Nat} {bs2 : List Backend}
    (h : pick_backend bs = Except.ok (i, bs2)) :
    ∃ b, bs.get? i = some b ∧ b.is_available = true ∧
      bs2 = bs.set i b.mark_request_start ∧
      (∀ j bj, bs.get? j = some bj → bj.is_available = true →
          b.active_requests ≤ bj.active_requests) ∧
      (∀ j bj, j < i → bs.get? j = some bj → bj.is_available = true →
          b.active_requests < bj.active_requests) := by
  cases hm : pyMinBy (fun p : Nat × Backend => p.2.active_requests)
      ((enumL 0 bs).filter (fun p => p.2.is_available)) with
  | none => simp [pick_backend, hm] at h
  | some p =>
    obtain ⟨i2, b⟩ := p
    simp only [pick_backend, hm, Except.ok.injEq, Prod.mk.injEq] at h
    obtain ⟨rfl, hbs2⟩ := h
    refine ⟨b, ?_, ?_, hbs2.symm, ?_, ?_⟩ <;> clear hbs2
    case _ =>
      have hmem : (i2, b) ∈ (enumL 0 bs).filter (fun p : Nat × Backend => p.2.is_available) := by
        rcases pyMinBy_spec _ hm with ⟨pre, post, hsplit, hpre, hpost⟩
        rw [hsplit]
        exact List.mem_append.2 (Or.inr (List.mem_cons_self _ _))
      exact (mem_enumL_zero bs _ b).1 (List.mem_filter.1 hmem).1
    case _ =>
      have hmem : (i2, b) ∈ (enumL 0 bs).filter (fun p : Nat × Backend => p.2.is_available) := by
        rcases pyMinBy_spec _ hm with ⟨pre, post, hsplit, hpre, hpost⟩
        rw [hsplit]
        exact List.mem_append.2 (Or.inr (List.mem_cons_self _ _))
      exact (List.mem_filter.1 hmem).2
    case _ =>
      intro j bj hj havailj
      rcases pyMinBy_spec _ hm with ⟨pre, post, hsplit, hpre, hpost⟩
      have hmemj : (j, bj) ∈ (enumL 0 bs).filter (fun p : Nat × Backend => p.2.is_available) :=
        List.mem_filter.2 ⟨(mem_enumL_zero bs j bj).2 hj, havailj⟩
      rw [hsplit] at hmemj
      rcases List.mem_append.1 hmemj with hin | hin
      · exact le_of_lt (hpre (j, bj) hin)
      · rcases List.mem_cons.1 hin with heq | hin2
        · rw [Prod.mk.injEq] at heq
          rw [heq.2]
        · exact hpost (j, bj) hin2
    case _ =>
      intro j bj hji hj havailj
      rcases pyMinBy_spec _ hm with ⟨pre, post, hsplit, hpre, hpost⟩
      have hmemj : (j, bj) ∈ (enumL 0 bs).filter (fun p : Nat × Backend => p.2.is_available) :=
        List.mem_filter.2 ⟨(mem_enumL_zero bs j bj).2 hj, havailj⟩
      have hpw : List.Pairwise (fun p q : Nat × Backend => p.1 < q.1)
          ((enumL 0 bs).filter (fun p : Nat × Backend => p.2.is_available)) :=
        List.Pairwise.filter _ (enumL_pairwise bs 0)
      rw [hsplit] at hmemj hpw
      rcases List.mem_append.1 hmemj with hin | hin
      · exact hpre (j, bj) hin
      · rcases List.mem_cons.1 hin with heq | hin2
        · rw [Prod.mk.injEq] at heq
          omega
        · have := ((List.pairwise_cons.1 (List.pairwise_append.1 hpw).2.1).1 (j, bj) hin2)
          simp only [] at this
          omega

/-! ### Claims about selection, the proxy handler and the fresh pool -/

/-- C1: pick_backend, the composite run under the selection lock, fails with
the no-healthy-backend error when no backend is available, succeeds when one
is, and on success returns an available backend of minimal counter — every
available backend configured earlier being strictly more loaded, so the first
configured wins ties — with exactly that backend's counter incremented in the
pool it hands back. -/
theorem pick_backend_correct (bs : List Backend) :
    ((∀ b ∈ bs, b.is_available = false) → pick_backend bs = Except.error noHealthyMsg) ∧
    ((∃ b ∈ bs, b.is_available = true) → ∃ i bs2, pick_backend bs = Except.ok (i, bs2)) ∧
    (∀ i bs2, pick_backend bs = Except.ok (i, bs2) →
      ∃ b, bs.get? i = some b ∧ b.is_available = true ∧
        bs2 = bs.set i b.mark_request_start ∧
        (∀ j bj, bs.get? j = some bj → bj.is_available = true →
            b.active_requests ≤ bj.active_requests) ∧
        (∀ j bj, j < i → bs.get? j = some bj → bj.is_available = true →
            b.active_requests < bj.active_requests)) :=
  ⟨fun h => pick_backend_error_of_none h,
   fun h => pick_backend_ok_of_avail h,
   fun _ _ h => pick_backend_ok_inv h⟩

/-- Witness for C1, scenario S5: on the pool with counters 3, 1, 1 the pick
lands on position 1 — the first of the two counter-1 backends. -/
theorem pick_backend_correct_witness :
    ∃ b, s5pool.get? 1 = some b ∧ b.is_available = true ∧
      s5pool.set 1 (Backend.mark_request_start ⟨['2'], some inferenceState, true, 1⟩) =
        s5pool.set 1 b.mark_request_start ∧
      (∀ j bj, s5pool.get? j = some bj → bj.is_available = true →
          b.active_requests ≤ bj.active_requests) ∧
      (∀ j bj, j < 1 → s5pool.get? j = some bj → bj.is_available = true →
          b.active_requests < bj.active_requests) :=
  (pick_backend_correct s5pool).2.2 1
    (s5pool.set 1 (Backend.mark_request_start ⟨['2'], some inferenceState, true, 1⟩))
    (by rfl)

/-- C9: a freshly constructed pool has every backend with unknown state,
unhealthy, counter zero and unavailable, so a pick fails, no backend is
healthy and the aggregate state is STOPPED. -/
theorem fresh_pool_state (urls : List (List Char)) :
    (∀ b ∈ BackendPool.make urls, b.state = none ∧ b.healthy = false ∧
        b.active_requests = 0 ∧ b.is_available = false) ∧
    pick_backend (BackendPool.make urls) = Except.error noHealthyMsg ∧
    any_healthy (BackendPool.make urls) = false ∧
    aggregate_state (BackendPool.make urls) = stoppedState := by
  have hfields : ∀ b ∈ BackendPool.make urls, b.state = none ∧ b.healthy = false ∧
      b.active_requests = 0 := by
    intro b hb
    rcases List.mem_map.1 hb with ⟨u, _, rfl⟩
    exact ⟨rfl, rfl, rfl⟩
  have hunavail : ∀ b ∈ BackendPool.make urls, b.is_available = false := by
    intro b hb
    rw [Backend.is_available, (hfields b hb).2.1]
    rfl
  have hstates : (BackendPool.make urls).filterMap truthyState = [] := by
    rw [List.filterMap_eq_nil_iff]
    intro b hb
    simp [truthyState, (hfields b hb).1]
  refine ⟨fun b hb => ⟨(hfields b hb).1, (hfields b hb).2.1, (hfields b hb).2.2,
      hunavail b hb⟩, pick_backend_error_of_none hunavail, ?_, ?_⟩
  · rw [any_healthy, List.any_eq_false]
    intro b hb
    rw [hunavail b hb]
    intro hcontra
    cases hcontra
  · simp only [aggregate_state]
    rw [hstates]
    rfl

/-- C8: the health route answers 200 with the healthy body exactly when some
backend is available (healthy and in INFERENCE state), answers 503 with its
no-healthy detail otherwise, and in both cases leaves the pool alone and
opens no upstream stream. -/
theorem health_route_correct (bs : List Backend) :
    ((health_route bs).status = 200 ∧ (health_route bs).body = ResponseBody.statusHealthy ↔
      ∃ b ∈ bs, b.healthy = true ∧ b.state = some inferenceState) ∧
    ((∀ b ∈ bs, b.is_available = false) →
      health_route bs = ⟨503, ResponseBody.detail noHealthyRouteMsg, bs, 0, none⟩) ∧
    (health_route bs).upstreamCalls = 0 ∧
    (health_route bs).pool = bs := by
  have hiff : any_healthy bs = true ↔
      ∃ b ∈ bs, b.healthy = true ∧ b.state = some inferenceState := by
    simp [any_healthy, Backend.is_available]
  by_cases h : any_healthy bs = true
  · have hroute : health_route bs = ⟨200, ResponseBody.statusHealthy, bs, 0, none⟩ := by
      simp [health_route, h]
    refine ⟨?_, ?_, by rw [hroute], by rw [hroute]⟩
    · constructor
      · intro _
        exact hiff.1 h
      · intro _
        rw [hroute]
        exact ⟨rfl, rfl⟩
    · intro hnone
      rcases hiff.1 h with ⟨b, hb, hh, hs⟩
      have hav := hnone b hb
      rw [Backend.is_available, hh, hs] at hav
      simp at hav
  · have hfalse : any_healthy bs = false := by
      cases hval : any_healthy bs
      · rfl
      · exact absurd hval h
    have hroute : health_route bs = ⟨503, ResponseBody.detail noHealthyRouteMsg, bs, 0, none⟩ := by
      simp [health_route, hfalse]
    refine ⟨?_, fun _ => hroute, by rw [hroute], by rw [hroute]⟩
    constructor
    · intro hcontra
      rw [hroute] at hcontra
      simp at hcontra
    · intro hx
      exact absurd (hiff.2 hx) h

/-- Witness for C8: on a pool holding one freshly constructed backend the
health route answers 503 with the no-healthy detail. -/
theorem health_route_correct_witness :
    health_route [Backend.make ['b']] =
      ⟨503, ResponseBody.detail noHealthyRouteMsg, [Backend.make ['b']], 0, none⟩ :=
  (health_route_correct [Backend.make ['b']]).2.1 (by decide)

/-! ### Release discipline on the error path -/

theorem get?_set_self {α : Type u} (l : List α) (i : Nat) (a b : α)
    (h : l.get? i = some b) : (l.set i a).get? i = some a := by
  induction l generalizing i with
  | nil => simp at h
  | cons x xs ih =>
    cases i with
    | zero => rfl
    | succ n => exact ih n h

theorem set_get?_id {α : Type u} (l : List α) (i : Nat) (b : α)
    (h : l.get? i = some b) : l.set i b = l := by
  induction l generalizing i with
  | nil => rfl
  | cons x xs ih =>
    cases i with
    | zero =>
      have hxb : x = b := by simpa using h
      subst hxb
      rfl
    | succ n => exact congrArg (x :: ·) (ih n h)

/-- Releasing a backend right after picking it restores the pool, as long as
its counter was non-negative before the pick. -/
theorem release_after_pick {bs : List Backend} {i : Nat} {b : Backend}
    (hget : bs.get? i = some b) (hnn : 0 ≤ b.active_requests) :
    release_backend (bs.set i b.mark_request_start) i = bs := by
  have hget2 : (bs.set i b.mark_request_start).get? i = some b.mark_request_start :=
    get?_set_self bs i _ b hget
  calc release_backend (bs.set i b.mark_request_start) i
      = (bs.set i b.mark_request_start).set i b.mark_request_start.mark_request_done := by
        simp only [release_backend, hget2]
    _ = bs.set i b.mark_request_start.mark_request_done := by rw [List.set_set]
    _ = bs.set i b := by rw [mark_done_mark_start b hnn]
    _ = bs := set_get?_id bs i b hget

/-- C2: with every counter non-negative, a proxy request finding no available
backend is answered 503 with the pick error as detail and changes no counter,
and a successful pick whose upstream open fails is answered 502 with the
upstream-failed detail after the picked backend has been released, so the
pool it leaves behind is exactly the pool it started from. -/
theorem proxy_request_error_handling (bs : List Backend) (up : UpstreamOutcome)
    (hnn : ∀ b ∈ bs, 0 ≤ b.active_requests) :
    ((∀ b ∈ bs, b.is_available = false) →
        proxy_request bs up = ⟨503, ResponseBody.detail noHealthyMsg, bs, 0, none⟩) ∧
    ((∃ b ∈ bs, b.is_available = true) → up = UpstreamOutcome.openFailed →
        proxy_request bs up = ⟨502, ResponseBody.detail upstreamFailedMsg, bs, 1, none⟩) := by
  constructor
  · intro hnone
    simp [proxy_request, pick_backend_error_of_none hnone]
  · rintro hex rfl
    rcases pick_backend_ok_of_avail hex with ⟨i, bs2, hok⟩
    rcases pick_backend_ok_inv hok with ⟨b, hget, _, hbs2, _, _⟩
    have hrel : release_backend bs2 i = bs := by
      rw [hbs2]
      exact release_after_pick hget (hnn b (List.get?_mem hget))
    simp [proxy_request, hok, hrel]

/-- Witness for C2, scenario S6: one available backend, upstream open fails,
client sees 502 and the counter is back at its pre-call value. -/
theorem proxy_request_error_handling_witness :
    proxy_request ([⟨['b'], some inferenceState, true, 0⟩] : List Backend)
        UpstreamOutcome.openFailed =
      ⟨502, ResponseBody.detail upstreamFailedMsg,
        ([⟨['b'], some inferenceState, true, 0⟩] : List Backend), 1, none⟩ :=
  (proxy_request_error_handling ([⟨['b'], some inferenceState, true, 0⟩] : List Backend)
      UpstreamOutcome.openFailed (by decide)).2 (by decide) rfl

/-! ### Aggregate state -/

/-- For a non-empty label, membership in the collected truthy states is
exactly some backend reporting that label. -/
theorem statesContains (bs : List Backend) (p : String) (hp : ¬ p = "") :
    (bs.filterMap truthyState).contains p = true ↔ hasState bs p := by
  rw [List.contains, List.elem_iff, List.mem_filterMap]
  constructor
  · rintro ⟨b, hb, hf⟩
    refine ⟨b, hb, ?_⟩
    rcases hst : b.state with _ | s
    · simp [truthyState, hst] at hf
    · simp [truthyState, hst] at hf
      by_cases hs : s = ""
      · simp [hs] at hf
      · simp [hs] at hf
        rw [hf]
  · rintro ⟨b, hb, hst⟩
    refine ⟨b, hb, ?_⟩
    simp [truthyState, hst, hp]

/-- Stepping the priority scan over a label no backend reports. -/
theorem aggregate_step (bs : List Backend) (p : String) (rest : List String)
    (hp : ¬ p = "") (h : ¬ hasState bs p) :
    List.find? (fun s => (bs.filterMap truthyState).contains s) (p :: rest) =
      List.find? (fun s => (bs.filterMap truthyState).contains s) rest := by
  refine List.find?_cons_of_neg rest ?_
  intro hcontra
  exact h ((statesContains bs p hp).1 hcontra)

/-- Resolving the priority scan at a label some backend reports. -/
theorem aggregate_hit (bs : List Backend) (p : String) (rest : List String)
    (hp : ¬ p = "") (h : hasState bs p) :
    List.find? (fun s => (bs.filterMap truthyState).contains s) (p :: rest) = some p :=
  List.find?_cons_of_pos rest ((statesContains bs p hp).2 h)

theorem aggregate_of_inference {bs : List Backend} (h : hasState bs inferenceState) :
    aggregate_state bs = inferenceState := by
  simp only [aggregate_state, statePriority]
  rw [aggregate_hit bs inferenceState _ (by decide) h]

theorem aggregate_of_pow {bs : List Backend} (h1 : ¬ hasState bs inferenceState)
    (h2 : hasState bs powState) : aggregate_state bs = powState := by
  simp only [aggregate_state, statePriority]
  rw [aggregate_step bs inferenceState _ (by decide) h1,
    aggregate_hit bs powState _ (by decide) h2]

theorem aggregate_of_train {bs : List Backend} (h1 : ¬ hasState bs inferenceState)
    (h2 : ¬ hasState bs powState) (h3 : hasState bs trainState) :
    aggregate_state bs = trainState := by
  simp only [aggregate_state, statePriority]
  rw [aggregate_step bs inferenceState _ (by decide) h1,
    aggregate_step bs powState _ (by decide) h2,
    aggregate_hit bs trainState _ (by decide) h3]

theorem aggregate_of_rest {bs : List Backend} (h1 : ¬ hasState bs inferenceState)
    (h2 : ¬ hasState bs powState) (h3 : ¬ hasState bs trainState) :
    aggregate_state bs = stoppedState := by
  simp only [aggregate_state, statePriority]
  rw [aggregate_step bs inferenceState _ (by decide) h1,
    aggregate_step bs powState _ (by decide) h2,
    aggregate_step bs trainState _ (by decide) h3]
  by_cases h4 : hasState bs stoppedState
  · rw [aggregate_hit bs stoppedState _ (by decide) h4]
  · rw [aggregate_step bs stoppedState _ (by decide) h4, List.find?_nil]

/-- C3 counterexample: a pool whose single backend reports the non-priority
label FOO makes aggregate_state return STOPPED even though that backend has a
known, non-null state — refuting the claimed equivalence between STOPPED and
the absence of any known state. -/
theorem aggregate_state_claim_cex :
    aggregate_state ([⟨['b'], some fooState, true, 0⟩] : List Backend) = stoppedState ∧
    ¬ (∀ b ∈ ([⟨['b'], some fooState, true, 0⟩] : List Backend), b.state = none) := by
  constructor
  · decide
  · intro h
    have := h ⟨['b'], some fooState, true, 0⟩ (List.mem_cons_self _ _)
    cases this

/-- C3 amended: aggregate_state returns the first entry of the priority list
INFERENCE, POW, TRAIN, STOPPED that some backend reports, and it returns
STOPPED exactly when no backend reports INFERENCE, POW or TRAIN — be it
because no state is known or because only STOPPED or labels outside the
priority list are reported. -/
theorem aggregate_state_correct (bs : List Backend) :
    (hasState bs inferenceState → aggregate_state bs = inferenceState) ∧
    (¬ hasState bs inferenceState → hasState bs powState →
        aggregate_state bs = powState) ∧
    (¬ hasState bs inferenceState → ¬ hasState bs powState → hasState bs trainState →
        aggregate_state bs = trainState) ∧
    (¬ hasState bs inferenceState → ¬ hasState bs powState → ¬ hasState bs trainState →
        aggregate_state bs = stoppedState) ∧
    (aggregate_state bs = stoppedState ↔
        ¬ hasState bs inferenceState ∧ ¬ hasState bs powState ∧ ¬ hasState bs trainState) := by
  refine ⟨fun h => aggregate_of_inference h, fun h1 h2 => aggregate_of_pow h1 h2,
    fun h1 h2 h3 => aggregate_of_train h1 h2 h3,
    fun h1 h2 h3 => aggregate_of_rest h1 h2 h3, ?_, ?_⟩
  · intro hstop
    refine ⟨?_, ?_, ?_⟩
    · intro h1
      rw [aggregate_of_inference h1] at hstop
      exact absurd hstop (by decide)
    · intro h2
      by_cases h1 : hasState bs inferenceState
      · rw [aggregate_of_inference h1] at hstop
        exact absurd hstop (by decide)
      · rw [aggregate_of_pow h1 h2] at hstop
        exact absurd hstop (by decide)
    · intro h3
      by_cases h1 : hasState bs inferenceState
      · rw [aggregate_of_inference h1] at hstop
        exact absurd hstop (by decide)
      · by_cases h2 : hasState bs powState
        · rw [aggregate_of_pow h1 h2] at hstop
          exact absurd hstop (by decide)
        · rw [aggregate_of_train h1 h2 h3] at hstop
          exact absurd hstop (by decide)
  · rintro ⟨h1, h2, h3⟩
    exact aggregate_of_rest h1 h2 h3

/-- Witness for C3's amended statement: a POW backend next to a stateless one
aggregates to POW. -/
theorem aggregate_state_correct_witness :
    aggregate_state ([⟨['b'], some powState, true, 0⟩, Backend.make ['c']] : List Backend) =
      powState :=
  (aggregate_state_correct
      ([⟨['b'], some powState, true, 0⟩, Backend.make ['c']] : List Backend)).2.1
    (by decide) (by decide)

/-! ### Configuration loading -/

/-- Inversion of a successful load: the backends list was non-empty and every
field comes from its own environment read. -/
theorem load_ok_inv {env : String → Option (List Char)} {pf : List Char → Option Rat}
    {s : Settings} (h : Settings.load env pf = Except.ok s) :
    parseBackends ((env varBackends).getD []) ≠ [] ∧
    s.backend_urls = parseBackends ((env varBackends).getD []) ∧
    float_env env pf varRefresh 2 = Except.ok s.refresh_interval ∧
    float_env env pf varRequest 30 = Except.ok s.request_timeout ∧
    float_env env pf varState 5 = Except.ok s.state_timeout ∧
    float_env env pf varHealth 2 = Except.ok s.health_timeout := by
  cases hempty : (parseBackends ((env varBackends).getD [])).isEmpty with
  | true => simp [Settings.load, hempty] at h
  | false =>
    have hne : parseBackends ((env varBackends).getD []) ≠ [] := by
      intro hcontra
      rw [hcontra] at hempty
      simp at hempty
    cases h1 : float_env env pf varRefresh 2 with
    | error e => simp [Settings.load, hempty, h1] at h
    | ok ri =>
      cases h2 : float_env env pf varRequest 30 with
      | error e => simp [Settings.load, hempty, h1, h2] at h
      | ok rt =>
        cases h3 : float_env env pf varState 5 with
        | error e => simp [Settings.load, hempty, h1, h2, h3] at h
        | ok st =>
          cases h4 : float_env env pf varHealth 2 with
          | error e => simp [Settings.load, hempty, h1, h2, h3, h4] at h
          | ok ht =>
            simp only [Settings.load, hempty, h1, h2, h3, h4, Bool.false_eq_true,
              if_false, Except.ok.injEq] at h
            subst h
            exact ⟨hne, rfl, rfl, rfl, rfl, rfl⟩

/-- A float variable that is set to an unparsable value makes the load fail. -/
theorem load_not_ok_of_bad_float {env : String → Option (List Char)}
    {pf : List Char → Option Rat} (name : String)
    (hname : name = varRefresh ∨ name = varRequest ∨ name = varState ∨ name = varHealth)
    {rawv : List Char} (hr : env name = some rawv) (hpf : pf rawv = none) :
    ∀ s, Settings.load env pf ≠ Except.ok s := by
  intro s h
  rcases load_ok_inv h with ⟨_, _, h1, h2, h3, h4⟩
  have hfe : ∀ d : Rat, float_env env pf name d =
      Except.error (ConfigError.invalidFloat name rawv) := by
    intro d
    simp [float_env, hr, hpf]
  rcases hname with rfl | rfl | rfl | rfl
  · rw [hfe 2] at h1
    cases h1
  · rw [hfe 30] at h2
    cases h2
  · rw [hfe 5] at h3
    cases h3
  · rw [hfe 2] at h4
    cases h4

/-- C7: the backend list is the comma-split value with blank entries dropped
and each kept entry stripped of whitespace and of trailing slashes; the load
fails with the configuration error exactly when that list is empty; each of
the four float variables falls back to its documented default when absent,
and an unparsable value makes the load fail. -/
theorem settings_load_correct (env : String → Option (List Char))
    (pf : List Char → Option Rat) :
    (parseBackends ((env varBackends).getD []) = [] →
        Settings.load env pf = Except.error ConfigError.noBackends) ∧
    (∀ s, Settings.load env pf = Except.ok s →
        s.backend_urls = parseBackends ((env varBackends).getD []) ∧
        s.backend_urls ≠ [] ∧
        (∀ u ∈ s.backend_urls, ∃ e ∈ pySplit ',' ((env varBackends).getD []),
            ¬ (pyStrip e).isEmpty = true ∧ u = pyRstripSlash (pyStrip e)) ∧
        (env varRefresh = none → s.refresh_interval = 2) ∧
        (env varRequest = none → s.request_timeout = 30) ∧
        (env varState = none → s.state_timeout = 5) ∧
        (env varHealth = none → s.health_timeout = 2)) ∧
    (∀ name, (name = varRefresh ∨ name = varRequest ∨ name = varState ∨ name = varHealth) →
        ∀ rawv, env name = some rawv → pf rawv = none →
          ∀ s, Settings.load env pf ≠ Except.ok s) := by
  refine ⟨?_, ?_, ?_⟩
  · intro hempty
    have hb : (parseBackends ((env varBackends).getD [])).isEmpty = true := by
      rw [hempty]
      rfl
    simp [Settings.load, hb]
  · intro s h
    rcases load_ok_inv h with ⟨hne, hurls, h1, h2, h3, h4⟩
    refine ⟨hurls, by rw [hurls]; exact hne, ?_, ?_, ?_, ?_, ?_⟩
    · intro u hu
      rw [hurls] at hu
      simp only [parseBackends] at hu
      rcases List.mem_filterMap.1 hu with ⟨e, he, hfe⟩
      by_cases hs : (pyStrip e).isEmpty
      · rw [if_pos hs] at hfe
        cases hfe
      · rw [if_neg hs] at hfe
        injection hfe with hback
        exact ⟨e, he, hs, hback.symm⟩
    · intro habs
      simp [float_env, habs] at h1
      exact h1.symm
    · intro habs
      simp [float_env, habs] at h2
      exact h2.symm
    · intro habs
      simp [float_env, habs] at h3
      exact h3.symm
    · intro habs
      simp [float_env, habs] at h4
      exact h4.symm
  · exact fun name hname rawv hr hpf s h => load_not_ok_of_bad_float name hname hr hpf s h

/-- Witness for C7: with an empty environment the load fails with the
no-backends configuration error. -/
theorem settings_load_correct_witness :
    Settings.load (fun _ => none) (fun _ => none) = Except.error ConfigError.noBackends :=
  (settings_load_correct (fun _ => none) (fun _ => none)).1 rfl

/-- C10: for any settings a successful load produced, the pool built from it
has a first backend, so the fallback route's selection cannot reach its
no-backends-configured 503. -/
theorem fallback_branch_unreachable (env : String → Option (List Char))
    (pf : List Char → Option Rat) (s : Settings)
    (h : Settings.load env pf = Except.ok s) :
    ∃ b, proxy_fallback_select (BackendPool.make s.backend_urls) = Except.ok b ∧
      (BackendPool.make s.backend_urls).head? = some b := by
  rcases load_ok_inv h with ⟨hne, hurls, _, _, _, _⟩
  have hne2 : s.backend_urls ≠ [] := by
    rw [hurls]
    exact hne
  cases hu : s.backend_urls with
  | nil => exact absurd hu hne2
  | cons u rest =>
    refine ⟨Backend.make u, ?_, ?_⟩
    · simp [proxy_fallback_select, BackendPool.make, hu]
    · simp [BackendPool.make, hu]

/-- Witness for C10: a one-backend environment loads and yields a pool whose
fallback selection succeeds. -/
theorem fallback_branch_unreachable_witness :
    ∃ b, proxy_fallback_select (BackendPool.make
        (Settings.mk [['h']] 2 30 5 2).backend_urls) = Except.ok b ∧
      (BackendPool.make (Settings.mk [['h']] 2 30 5 2).backend_urls).head? = some b :=
  fallback_branch_unreachable
    (fun n => if n == varBackends then some ['h'] else none) (fun _ => none)
    (Settings.mk [['h']] 2 30 5 2) (by rfl)

/-- Witness for C9: the one-backend fresh pool rejects picks and aggregates
to STOPPED. -/
theorem fresh_pool_state_witness :
    pick_backend (BackendPool.make [['u']]) = Except.error noHealthyMsg ∧
    aggregate_state (BackendPool.make [['u']]) = stoppedState :=
  ⟨(fresh_pool_state [['u']]).2.1, (fresh_pool_state [['u']]).2.2.2⟩
